import Mathlib

/-!
Verification of the Nigeria inflation forecasting dashboard (`src/app.py`).

The script is a linear pipeline: fetch a World Bank JSON series, filter out
null values and sort by date, optionally append a user-supplied row for the
current month, fit a Prophet model and predict over the history plus `N`
month-end future dates, then display and export the last `N` rows.

The embedding below translates each stage of that pipeline.  Dates are
calendar dates ordered chronologically; floating-point values are modelled
as rationals.  The Prophet library itself is external; its interface
(`make_future_dataframe`, `predict`) is modelled from the specification's
description of it, as noted on the corresponding definitions.
-/

/-- Calendar date.  `ym` counts whole months from year 0, so
`ym = 12 * year + (month - 1)`, and `day` is the day of the month.
Chronological order is lexicographic on `(ym, day)`, which agrees with the
ordering of pandas timestamps for calendar dates. -/
structure Date where
  ym : Nat
  day : Nat
deriving DecidableEq, Repr, Inhabited

/-- Build a date from year, month (1-12) and day. -/
def mkDate (year month day : Nat) : Date := ⟨12 * year + (month - 1), day⟩

def Date.year (d : Date) : Nat := d.ym / 12

def Date.month (d : Date) : Nat := d.ym % 12 + 1

/-- Chronological order on dates (lexicographic on months, then day). -/
def Date.le (a b : Date) : Prop := a.ym < b.ym ∨ (a.ym = b.ym ∧ a.day ≤ b.day)

def Date.lt (a b : Date) : Prop := a.ym < b.ym ∨ (a.ym = b.ym ∧ a.day < b.day)

instance : LE Date := ⟨Date.le⟩

instance : LT Date := ⟨Date.lt⟩

instance (a b : Date) : Decidable (a ≤ b) :=
  inferInstanceAs (Decidable (_ ∨ _))

instance (a b : Date) : Decidable (a < b) :=
  inferInstanceAs (Decidable (_ ∨ _))

/-- Gregorian leap-year rule. -/
def isLeap (y : Nat) : Bool := (y % 4 == 0 && y % 100 != 0) || y % 400 == 0

/-- Number of days of month `m` (1-12) in year `y`. -/
def daysInMonth (y m : Nat) : Nat :=
  if m = 2 then (if isLeap y then 29 else 28)
  else if m = 4 ∨ m = 6 ∨ m = 9 ∨ m = 11 then 30
  else 31

/-- The month-end date of the month with absolute month number `ym`. -/
def monthEndOf (ym : Nat) : Date := ⟨ym, daysInMonth (ym / 12) (ym % 12 + 1)⟩

/-- A date is a month end when it is the last day of its month. -/
def IsMonthEnd (d : Date) : Prop := d = monthEndOf d.ym

/-- Replace the day by 1, as `datetime.today().replace(day=1)` does. -/
def Date.firstOfMonth (d : Date) : Date := ⟨d.ym, 1⟩

/-- Maximum of a list of dates (`history_dates.max()` in Prophet). -/
def maxDate (dates : List Date) : Date :=
  dates.foldl (fun a b => if a ≤ b then b else a) ⟨0, 0⟩

/-! ## Character-level rendering and parsing utilities

These support the model of the World Bank date strings and of the CSV
export (`to_csv` / reading it back). -/

/-- Value of a decimal digit character. -/
def charDigit (c : Char) : Option Nat :=
  if c.isDigit then some (c.toNat - 48) else none

/-- Decimal digits of `n`, most significant first; `fuel` bounds recursion. -/
def renderNatAux : Nat → Nat → List Char
  | 0, _ => []
  | fuel + 1, n =>
    if n = 0 then [] else renderNatAux fuel (n / 10) ++ [Nat.digitChar (n % 10)]

/-- Decimal rendering of a natural number. -/
def renderNat (n : Nat) : List Char :=
  if n = 0 then ['0'] else renderNatAux n n

/-- Parse a nonempty all-digit character list as a natural number. -/
def parseNatChars (l : List Char) : Option Nat :=
  if l.isEmpty || !(l.all Char.isDigit) then none
  else some (l.foldl (fun a c => 10 * a + (c.toNat - 48)) 0)

/-- Split a character list at every occurrence of `sep` (the separators are
dropped); always returns at least one, possibly empty, field. -/
def splitOnChar (sep : Char) : List Char → List (List Char)
  | [] => [[]]
  | c :: rest =>
    if c = sep then [] :: splitOnChar sep rest
    else
      match splitOnChar sep rest with
      | [] => [[c]]
      | h :: t => (c :: h) :: t

/-- Join character lists with a separator between consecutive fields. -/
def joinWith (sep : Char) : List (List Char) → List Char
  | [] => []
  | [x] => x
  | x :: y :: xs => x ++ sep :: joinWith sep (y :: xs)

/-! ## JSON model and Data Acquisition (`get_world_bank_inflation`) -/

/-- JSON values, as far as the script inspects them. -/
inductive JValue where
  | null
  | num (q : ℚ)
  | str (s : String)
  | arr (elems : List JValue)
  | obj (fields : List (String × JValue))
deriving Inhabited

/-- Error taxonomy of the pipeline: a failed or timed-out request, or a JSON
response of unexpected shape (missing second element, missing keys,
unparseable date).  The Python script raises the corresponding exceptions
(`requests` errors, `IndexError`/`KeyError`/`TypeError`/`ValueError`) and
never catches them. -/
inductive AppError where
  | networkError
  | dataFormatError
deriving DecidableEq, Repr, Inhabited

/-- One row of the observation series: the `Date` and `Inflation` columns.
The script stores the raw JSON `value` field unchanged, so the value is kept
as a `JValue` (non-null after filtering). -/
structure ObsRow where
  date : Date
  inflation : JValue
deriving Inhabited

abbrev Series := List ObsRow

/-- Dictionary access `d[key]`: defined only on objects with the key present
(anything else raises `KeyError`/`TypeError` in Python). -/
def getField (j : JValue) (key : String) : Option JValue :=
  match j with
  | .obj fields => fields.lookup key
  | _ => none

/-- The Python `is None` test on a JSON value. -/
def JValue.isNull : JValue → Bool
  | .null => true
  | _ => false

/-- Model of `pd.to_datetime` on the World Bank date strings: a year
(`"2023"` parses to 2023-01-01), a year-month, or a full date.  Anything
else, including out-of-range components, fails (raises in Python). -/
def parseWBDate (s : String) : Option Date :=
  match splitOnChar '-' s.data with
  | [y] => (parseNatChars y).map (fun yy => mkDate yy 1 1)
  | [y, m] => do
    let yy ← parseNatChars y
    let mm ← parseNatChars m
    if 1 ≤ mm ∧ mm ≤ 12 then some (mkDate yy mm 1) else none
  | [y, m, dd] => do
    let yy ← parseNatChars y
    let mm ← parseNatChars m
    let d2 ← parseNatChars dd
    if 1 ≤ mm ∧ mm ≤ 12 ∧ 1 ≤ d2 ∧ d2 ≤ daysInMonth yy mm then
      some (mkDate yy mm d2)
    else none
  | _ => none

/-- The list comprehension of `get_world_bank_inflation`: for each record the
`value` field is read first (a missing `value` key raises); records with a
null value are skipped before their `date` field is ever touched; for the
remaining records the `date` field is read (missing key raises) and parsed
(unparseable or non-string dates raise), and the raw value is kept. -/
def parseRecords : List JValue → Except AppError (List ObsRow)
  | [] => .ok []
  | d :: rest =>
    match getField d "value" with
    | none => .error .dataFormatError
    | some v =>
      if v.isNull then parseRecords rest
      else
        match getField d "date" with
        | none => .error .dataFormatError
        | some (.str s) =>
          match parseWBDate s with
          | none => .error .dataFormatError
          | some dt => (parseRecords rest).map (fun rows => ⟨dt, v⟩ :: rows)
        | some _ => .error .dataFormatError

/-- Ordering used by `data.sort_values("Date")`: ascending by date. -/
def byDate (a b : ObsRow) : Prop := a.date ≤ b.date

instance : DecidableRel byDate := fun a b =>
  inferInstanceAs (Decidable (a.date ≤ b.date))

instance : IsTotal ObsRow byDate :=
  ⟨fun a b => by
    show Date.le a.date b.date ∨ Date.le b.date a.date
    unfold Date.le
    omega⟩

instance : IsTrans ObsRow byDate :=
  ⟨fun a b c hab hbc => by
    have h1 : Date.le a.date b.date := hab
    have h2 : Date.le b.date c.date := hbc
    show Date.le a.date c.date
    unfold Date.le at h1 h2 ⊢
    omega⟩

/-- The `response.json()[1]` access: the response must be a JSON array with
at least two elements, with the second an array of records; a missing
request is a network failure. -/
def extractRecords (response : Option JValue) : Except AppError (List JValue) :=
  match response with
  | none => .error .networkError
  | some (.arr (_ :: second :: _)) =>
    match second with
    | .arr records => .ok records
    | _ => .error .dataFormatError
  | some _ => .error .dataFormatError

/-- Data Acquisition (`get_world_bank_inflation` in `src/app.py`): index the
JSON envelope, build the rows from non-null records, and sort by date.
The `response` argument stands for the outcome of `requests.get` (`none` is
a failed request).  When every record is filtered out, `pd.DataFrame([])`
has no `Date` column, so `data.sort_values("Date")` (line 22) raises
`KeyError`: the empty case is a data-format failure, not an empty table. -/
def get_world_bank_inflation (response : Option JValue) : Except AppError Series :=
  (extractRecords response).bind (fun records =>
    (parseRecords records).bind (fun rows =>
      if rows.isEmpty then .error .dataFormatError
      else .ok (List.insertionSort byDate rows)))

/-! ## Interactive Input (lines 52-57 of `src/app.py`) -/

/-- The current-month augmentation block: when the checkbox is enabled, and
the first day of the current month is not already a date of the series, the
pair (first of current month, entered value) is appended; otherwise the
series is returned unchanged. -/
def augmentCurrentMonth (data : Series) (enabled : Bool) (current_inflation : ℚ)
    (today : Date) : Series :=
  if enabled then
    if today.firstOfMonth ∈ data.map ObsRow.date then data
    else data ++ [⟨today.firstOfMonth, .num current_inflation⟩]
  else data

/-! ## Forecast Engine (`forecast_inflation`, delegating to Prophet) -/

/-- One row of the Prophet forecast frame, restricted to the columns the
script reads: `ds`, `yhat`, `yhat_lower`, `yhat_upper`. -/
structure ForecastRow where
  ds : Date
  yhat : ℚ
  yhat_lower : ℚ
  yhat_upper : ℚ
deriving DecidableEq, Repr, Inhabited

/-- Abstract fitted model: for each timestamp, a point estimate and two
interval offsets.  The numeric content of Prophet's fit is opaque to the
script, so it is kept abstract. -/
abbrev Model := Date → ℚ × ℚ × ℚ

/-- Modelled from the spec: `Prophet.predict` is external library code, not
in `src/`.  The specification describes its output as point forecasts with
lower/upper uncertainty bounds, the bounds being an interval around the
point estimate.  Each predicted row therefore carries the point estimate and
the interval obtained from the model's (arbitrary) offsets at that date. -/
def predictRow (m : Model) (d : Date) : ForecastRow :=
  ⟨d, (m d).1, (m d).1 - |(m d).2.1|, (m d).1 + |(m d).2.2|⟩

/-- First month (absolute month number) whose month end is at or after `d`. -/
def rollForwardME (d : Date) : Nat :=
  if d ≤ monthEndOf d.ym then d.ym else d.ym + 1

/-- Model of `pd.date_range(start, periods=k, freq='M')`: the first `k`
month-end dates at or after `start`. -/
def dateRangeME (start : Date) (k : Nat) : List Date :=
  (List.range k).map (fun i => monthEndOf (rollForwardME start + i))

/-- The future timestamps of `make_future_dataframe`: `periods + 1` month
ends from the last history date, those equal to it dropped, truncated to
`periods` entries. -/
def futureDates (last : Date) (periods : Nat) : List Date :=
  ((dateRangeME last (periods + 1)).filter (fun d => decide (last < d))).take periods

/-- The unique sorted history dates Prophet keeps from the fitted frame. -/
def histDates (dates : List Date) : List Date :=
  List.insertionSort (· ≤ ·) dates.dedup

/-- Modelled from the spec: `Prophet.make_future_dataframe` is external
library code, not in `src/`.  The specification fixes its behaviour: future
timestamps are generated at month-end frequency starting immediately after
the last historical date, and the returned frame contains the history dates
followed by `periods` future dates. -/
def make_future_dataframe (dates : List Date) (periods : Nat) : List Date :=
  histDates dates ++ futureDates (maxDate dates) periods

/-- The Forecast Engine (`forecast_inflation` in `src/app.py`): rename the
columns to Prophet's schema (pure marshalling, so the model keeps named
fields), fit, extend the frame by `periods` month-end dates, and predict a
row for every timestamp of the extended frame. -/
def forecast_inflation (df : Series) (periods : Nat) (m : Model) : List ForecastRow :=
  (make_future_dataframe (df.map ObsRow.date) periods).map (predictRow m)

/-! ## Presentation and export -/

/-- One row of the displayed forecast table, after the column rename
`ds ↦ Date`, `yhat ↦ Forecast`, `yhat_lower ↦ Lower Bound`,
`yhat_upper ↦ Upper Bound`. -/
structure DisplayRow where
  date : Date
  forecast : ℚ
  lower_bound : ℚ
  upper_bound : ℚ
deriving DecidableEq, Repr, Inhabited

/-- `DataFrame.tail n`: the last `n` rows. -/
def tailRows {α : Type} (n : Nat) (l : List α) : List α := l.drop (l.length - n)

/-- The displayed table (`forecast_display` in `src/app.py`): the last
`forecast_period` rows of the forecast, restricted to the four columns and
relabeled. -/
def forecast_display (forecast : List ForecastRow) (forecast_period : Nat) :
    List DisplayRow :=
  (tailRows forecast_period forecast).map
    (fun r => ⟨r.ds, r.yhat, r.yhat_lower, r.yhat_upper⟩)

/-- Decimal rendering of an integer. -/
def renderInt (i : Int) : List Char :=
  if i < 0 then '-' :: renderNat i.natAbs else renderNat i.natAbs

/-- Parse an optional leading minus sign followed by digits. -/
def parseIntChars (l : List Char) : Option Int :=
  match l with
  | [] => none
  | c :: rest =>
    if c = '-' then (parseNatChars rest).map (fun n => -(Int.ofNat n))
    else (parseNatChars (c :: rest)).map (fun n => Int.ofNat n)

/-- Modelled from the spec: the CSV is written by pandas `to_csv`, external
library code.  The round-trip property is stated modulo floating-point
formatting, so a rational cell is serialized exactly, as numerator and
denominator. -/
def renderRat (q : ℚ) : List Char :=
  renderInt q.num ++ '/' :: renderNat q.den

/-- Parse a rational serialized by `renderRat`. -/
def parseRatChars (l : List Char) : Option ℚ :=
  match splitOnChar '/' l with
  | [a, b] => do
    let n ← parseIntChars a
    let d ← parseNatChars b
    some ((n : ℚ) / (d : ℚ))
  | _ => none

/-- ISO rendering `year-month-day` of a date. -/
def renderDate (d : Date) : List Char :=
  renderNat d.year ++ '-' :: (renderNat d.month ++ '-' :: renderNat d.day)

/-- Parse an ISO `year-month-day` cell. -/
def parseDateChars (l : List Char) : Option Date :=
  match splitOnChar '-' l with
  | [y, m, dd] => do
    let yy ← parseNatChars y
    let mm ← parseNatChars m
    let d2 ← parseNatChars dd
    some (mkDate yy mm d2)
  | _ => none

/-- The CSV header produced by `to_csv(index=False)` on the renamed table. -/
def headerChars : List Char := "Date,Forecast,Lower Bound,Upper Bound".data

/-- One CSV data line: the four cells joined by commas, no index cell. -/
def renderDisplayRow (r : DisplayRow) : List Char :=
  joinWith ','
    [renderDate r.date, renderRat r.forecast, renderRat r.lower_bound,
      renderRat r.upper_bound]

/-- Parse one CSV data line back into a display row. -/
def parseDisplayRow (l : List Char) : Option DisplayRow :=
  match splitOnChar ',' l with
  | [a, b, c, d] => do
    let dt ← parseDateChars a
    let f ← parseRatChars b
    let lo ← parseRatChars c
    let hi ← parseRatChars d
    some (⟨dt, f, lo, hi⟩ : DisplayRow)
  | _ => none

/-- The exported CSV text: header line followed by one line per row. -/
def toCsv (rows : List DisplayRow) : List Char :=
  joinWith '\n' (headerChars :: rows.map renderDisplayRow)

/-- Parse a CSV produced by `toCsv` back into a table. -/
def parseCsv (s : String) : Option (List DisplayRow) :=
  match splitOnChar '\n' s.data with
  | header :: rows =>
    if header = headerChars then rows.mapM parseDisplayRow else none
  | [] => none

/-- The download-button artifact: file name, MIME type and payload. -/
structure Artifact where
  file_name : String
  mime : String
  data : String
deriving DecidableEq, Repr, Inhabited

/-- Everything one render produces that the claims inspect. -/
structure Outputs where
  raw : Series
  table : List DisplayRow
  artifact : Artifact
deriving Inhabited

/-- One top-to-bottom run of the script body of `src/app.py`: acquire the
data (any failure aborts the render), take the raw-data view (last 12 rows)
before the augmentation step, optionally augment with the current-month
input, forecast, slice and relabel the display table, and build the CSV
download artifact. -/
def script (response : Option JValue) (forecast_period : Nat) (enabled : Bool)
    (current_inflation : ℚ) (today : Date) (m : Model) : Except AppError Outputs :=
  match get_world_bank_inflation response with
  | .error e => .error e
  | .ok data0 =>
    let raw := tailRows 12 data0
    let data := augmentCurrentMonth data0 enabled current_inflation today
    let forecast := forecast_inflation data forecast_period m
    let fd := forecast_display forecast forecast_period
    .ok ⟨raw, fd,
      ⟨"nigeria_inflation_forecast.csv", "text/csv", String.mk (toCsv fd)⟩⟩

/-- The first absolute month number whose month end lies strictly after
`last`; the future dates run from here. -/
def futureStart (last : Date) : Nat :=
  if last < monthEndOf (rollForwardME last) then rollForwardME last
  else rollForwardME last + 1

/-- A list of dates consists of the month ends of consecutive months. -/
def ConsecMonthEnds (l : List Date) : Prop :=
  ∃ j, l = (List.range l.length).map (fun i => monthEndOf (j + i))

/-- A record whose parsing necessarily raises: the `value` key is missing, or
the value is non-null and the `date` key is missing. -/
def BadRecord (d : JValue) : Prop :=
  getField d "value" = none ∨
    ∃ v, getField d "value" = some v ∧ v ≠ JValue.null ∧ getField d "date" = none

/-! ## Concrete instances used to exercise the theorems -/

/-- A trivial abstract model instance. -/
def m0 : Model := fun _ => (1, 0, 0)

/-- An arbitrary concrete current date. -/
def date0 : Date := mkDate 2025 10 12

/-- The example series of the specification:
(2023-01-01, 21.8), (2023-02-01, 21.9). -/
def df3 : Series :=
  [⟨mkDate 2023 1 1, .num (mkRat 218 10)⟩, ⟨mkDate 2023 2 1, .num (mkRat 219 10)⟩]

/-- A well-formed World Bank response with two non-null records. -/
def resp0 : Option JValue :=
  some (.arr [.null, .arr
    [.obj [("date", .str "2022"), ("value", .num 20)],
      .obj [("date", .str "2023"), ("value", .num 22)]]])

/-- The table acquired from `resp0`. -/
def data0 : Series :=
  match get_world_bank_inflation resp0 with
  | .ok d => d
  | .error _ => default

/-- The outputs of one render on `resp0`. -/
def out0 : Outputs :=
  match script resp0 3 false 0 date0 m0 with
  | .ok o => o
  | .error _ => default

/-- A well-formed response whose two non-null records share a date. -/
def resp5 : Option JValue :=
  some (.arr [.null, .arr
    [.obj [("date", .str "2023"), ("value", .num 1)],
      .obj [("date", .str "2023"), ("value", .num 2)]]])

/-- The table acquired from `resp5`. -/
def tbl5 : Series :=
  match get_world_bank_inflation resp5 with
  | .ok t => t
  | .error _ => default

/-- A response with a null-valued record lacking a date key, followed by one
surviving non-null record. -/
def resp8 : Option JValue :=
  some (.arr [.null, .arr
    [.obj [("value", .null)],
      .obj [("date", .str "2023"), ("value", .num 5)]]])

/-- A response whose only record has a null value: after filtering, the
frame is empty and `sort_values` raises. -/
def respEmpty : Option JValue := some (.arr [.null, .arr [.obj [("value", .null)]]])

/-- A record with a non-null value and no date key. -/
def badrec : JValue := .obj [("value", .num 1)]

/-- The first forecast row at the concrete example inputs. -/
def row0 : ForecastRow := predictRow m0 (mkDate 2023 1 1)

/-! ## Split/join lemmas -/

theorem splitOnChar_ne_nil (sep : Char) (l : List Char) : splitOnChar sep l ≠ [] := by
  induction l with
  | nil => simp [splitOnChar]
  | cons c rest ih =>
    unfold splitOnChar
    by_cases hc : c = sep
    · simp [hc]
    · simp only [if_neg hc]
      cases hs : splitOnChar sep rest with
      | nil => simp
      | cons h t => simp

theorem splitOnChar_cons_of_ne (sep c : Char) (l : List Char) (hc : c ≠ sep) :
    splitOnChar sep (c :: l)
      = (c :: (splitOnChar sep l).headI) :: (splitOnChar sep l).tail := by
  cases hs : splitOnChar sep l with
  | nil => exact absurd hs (splitOnChar_ne_nil sep l)
  | cons h t => simp [splitOnChar, if_neg hc, hs]

theorem splitOnChar_cons_self (sep : Char) (l : List Char) :
    splitOnChar sep (sep :: l) = [] :: splitOnChar sep l := by
  rw [splitOnChar]
  simp

theorem splitOnChar_append_of_not_mem (sep : Char) (x l : List Char) (hx : sep ∉ x) :
    splitOnChar sep (x ++ l)
      = (x ++ (splitOnChar sep l).headI) :: (splitOnChar sep l).tail := by
  induction x with
  | nil =>
    simp only [List.nil_append]
    cases hs : splitOnChar sep l with
    | nil => exact absurd hs (splitOnChar_ne_nil sep l)
    | cons h t => simp
  | cons c x ih =>
    have hc : c ≠ sep := fun h => hx (by simp [h])
    rw [List.cons_append, splitOnChar_cons_of_ne sep c (x ++ l) hc,
      ih (fun h => hx (by simp [h]))]
    simp

theorem splitOnChar_of_not_mem (sep : Char) (x : List Char) (hx : sep ∉ x) :
    splitOnChar sep x = [x] := by
  have h := splitOnChar_append_of_not_mem sep x [] hx
  have h0 : splitOnChar sep ([] : List Char) = [[]] := rfl
  rw [h0] at h
  simpa using h

theorem splitOnChar_joinWith (sep : Char) (ls : List (List Char)) (hne : ls ≠ [])
    (hcells : ∀ x ∈ ls, sep ∉ x) :
    splitOnChar sep (joinWith sep ls) = ls := by
  induction ls with
  | nil => exact absurd rfl hne
  | cons x xs ih =>
    cases xs with
    | nil =>
      exact splitOnChar_of_not_mem sep x (hcells x (by simp))
    | cons y ys =>
      have hx : sep ∉ x := hcells x (by simp)
      rw [joinWith, splitOnChar_append_of_not_mem sep x _ hx,
        splitOnChar_cons_self sep (joinWith sep (y :: ys)),
        ih (by simp) (fun z hz => hcells z (List.mem_cons_of_mem x hz))]
      simp

theorem mem_joinWith (sep : Char) (ls : List (List Char)) (c : Char)
    (hc : c ∈ joinWith sep ls) : c = sep ∨ ∃ x ∈ ls, c ∈ x := by
  induction ls with
  | nil => simp [joinWith] at hc
  | cons x xs ih =>
    cases xs with
    | nil =>
      exact Or.inr ⟨x, by simp, by simpa [joinWith] using hc⟩
    | cons y ys =>
      rw [joinWith] at hc
      rcases List.mem_append.mp hc with h | h
      · exact Or.inr ⟨x, by simp, h⟩
      · rcases List.mem_cons.mp h with h | h
        · exact Or.inl h
        · rcases ih h with h | ⟨z, hz, hcz⟩
          · exact Or.inl h
          · exact Or.inr ⟨z, List.mem_cons_of_mem x hz, hcz⟩

/-! ## Round trips for the numeric and date cells -/

theorem digitChar_isDigit : ∀ d < 10, (Nat.digitChar d).isDigit = true := by decide

theorem digitChar_val : ∀ d < 10, (Nat.digitChar d).toNat - 48 = d := by decide

theorem renderNatAux_isDigit (fuel : Nat) :
    ∀ n, ∀ c ∈ renderNatAux fuel n, c.isDigit = true := by
  induction fuel with
  | zero => intro n c hc; simp [renderNatAux] at hc
  | succ fuel ih =>
    intro n c hc
    by_cases hn : n = 0
    · simp [renderNatAux, hn] at hc
    · rw [renderNatAux, if_neg hn] at hc
      rcases List.mem_append.mp hc with h | h
      · exact ih (n / 10) c h
      · rw [List.mem_singleton.mp h]
        exact digitChar_isDigit (n % 10) (Nat.mod_lt n (by norm_num))

theorem renderNatAux_ne_nil (fuel n : Nat) (h0 : 0 < n) (hf : n ≤ fuel) :
    renderNatAux fuel n ≠ [] := by
  cases fuel with
  | zero => omega
  | succ fuel =>
    rw [renderNatAux, if_neg (by omega)]
    simp

theorem renderNatAux_foldl (fuel : Nat) :
    ∀ n a, n ≤ fuel →
      List.foldl (fun a c => 10 * a + (c.toNat - 48)) a (renderNatAux fuel n)
        = a * 10 ^ (renderNatAux fuel n).length + n := by
  induction fuel with
  | zero =>
    intro n a hn
    interval_cases n
    simp [renderNatAux]
  | succ fuel ih =>
    intro n a hn
    by_cases h0 : n = 0
    · simp [renderNatAux, h0]
    · rw [renderNatAux, if_neg h0, List.foldl_append, List.length_append]
      have hdiv : n / 10 ≤ fuel := by
        have := Nat.div_lt_self (Nat.pos_of_ne_zero h0) (by norm_num : (1:Nat) < 10)
        omega
      rw [ih (n / 10) a hdiv]
      simp only [List.foldl_cons, List.foldl_nil, List.length_cons, List.length_nil]
      rw [digitChar_val (n % 10) (Nat.mod_lt n (by omega))]
      rw [pow_succ]
      have := Nat.div_add_mod n 10
      ring_nf
      omega

theorem renderNat_isDigit (n : Nat) : ∀ c ∈ renderNat n, c.isDigit = true := by
  intro c hc
  unfold renderNat at hc
  by_cases h0 : n = 0
  · rw [if_pos h0] at hc
    rw [List.mem_singleton.mp hc]
    decide
  · rw [if_neg h0] at hc
    exact renderNatAux_isDigit n n c hc

theorem renderNat_ne_nil (n : Nat) : renderNat n ≠ [] := by
  unfold renderNat
  by_cases h0 : n = 0
  · simp [h0]
  · rw [if_neg h0]
    exact renderNatAux_ne_nil n n (Nat.pos_of_ne_zero h0) le_rfl

theorem parseNatChars_renderNat (n : Nat) : parseNatChars (renderNat n) = some n := by
  by_cases h0 : n = 0
  · subst h0
    decide
  · have hne : renderNat n ≠ [] := renderNat_ne_nil n
    have hdig : (renderNat n).all Char.isDigit = true :=
      List.all_eq_true.mpr (fun c hc => renderNat_isDigit n c hc)
    unfold parseNatChars
    rw [if_neg (by simp [List.isEmpty_iff, hne, hdig])]
    unfold renderNat
    rw [if_neg h0]
    rw [renderNatAux_foldl n n 0 le_rfl]
    simp

theorem parseIntChars_renderInt (i : Int) : parseIntChars (renderInt i) = some i := by
  by_cases hneg : i < 0
  · rw [renderInt, if_pos hneg, parseIntChars, if_pos rfl, parseNatChars_renderNat]
    simp only [Option.map_some']
    congr 1
    simp only [Int.ofNat_eq_coe]
    omega
  · rw [renderInt, if_neg hneg]
    cases hr : renderNat i.natAbs with
    | nil => exact absurd hr (renderNat_ne_nil i.natAbs)
    | cons c cs =>
      have hcdig : c.isDigit = true :=
        renderNat_isDigit i.natAbs c (by rw [hr]; simp)
      have hcm : c ≠ '-' := by
        intro h
        rw [h] at hcdig
        exact absurd hcdig (by decide)
      rw [parseIntChars, if_neg hcm, ← hr, parseNatChars_renderNat]
      simp only [Option.map_some']
      congr 1
      simp only [Int.ofNat_eq_coe]
      omega

theorem not_mem_renderNat_of_not_digit (n : Nat) (sep : Char)
    (hsep : sep.isDigit = false) : sep ∉ renderNat n := fun hm =>
  absurd (renderNat_isDigit n sep hm) (by simp [hsep])

theorem renderInt_chars (i : Int) : ∀ c ∈ renderInt i, c.isDigit = true ∨ c = '-' := by
  intro c hc
  unfold renderInt at hc
  by_cases hneg : i < 0
  · rw [if_pos hneg] at hc
    rcases List.mem_cons.mp hc with h | h
    · exact Or.inr h
    · exact Or.inl (renderNat_isDigit i.natAbs c h)
  · rw [if_neg hneg] at hc
    exact Or.inl (renderNat_isDigit i.natAbs c hc)

theorem not_mem_renderInt (i : Int) (sep : Char) (hsep : sep.isDigit = false)
    (hm : sep ≠ '-') : sep ∉ renderInt i := by
  intro h
  rcases renderInt_chars i sep h with h' | h'
  · rw [h'] at hsep
    exact absurd hsep (by simp)
  · exact hm h'

theorem splitOnChar_two_cells (sep : Char) (x y : List Char) (hx : sep ∉ x)
    (hy : sep ∉ y) : splitOnChar sep (x ++ sep :: y) = [x, y] := by
  rw [splitOnChar_append_of_not_mem sep x _ hx, splitOnChar_cons_self sep y,
    splitOnChar_of_not_mem sep y hy]
  simp

theorem splitOnChar_three_cells (sep : Char) (x y z : List Char) (hx : sep ∉ x)
    (hy : sep ∉ y) (hz : sep ∉ z) :
    splitOnChar sep (x ++ sep :: (y ++ sep :: z)) = [x, y, z] := by
  rw [splitOnChar_append_of_not_mem sep x _ hx, splitOnChar_cons_self sep _,
    splitOnChar_two_cells sep y z hy hz]
  simp

theorem parseRatChars_renderRat (q : ℚ) : parseRatChars (renderRat q) = some q := by
  unfold parseRatChars renderRat
  rw [splitOnChar_two_cells '/' (renderInt q.num) (renderNat q.den)
    (not_mem_renderInt q.num '/' (by decide) (by decide))
    (not_mem_renderNat_of_not_digit q.den '/' (by decide))]
  simp only [parseIntChars_renderInt, parseNatChars_renderNat]
  show some ((q.num : ℚ) / (q.den : ℚ)) = some q
  rw [Option.some_inj]
  exact Rat.num_div_den q

theorem mkDate_year_month_day (d : Date) : mkDate d.year d.month d.day = d := by
  unfold mkDate Date.year Date.month
  have : 12 * (d.ym / 12) + (d.ym % 12 + 1 - 1) = d.ym := by omega
  rw [this]

theorem parseDateChars_renderDate (d : Date) :
    parseDateChars (renderDate d) = some d := by
  unfold parseDateChars renderDate
  rw [splitOnChar_three_cells '-' (renderNat d.year) (renderNat d.month)
    (renderNat d.day)
    (not_mem_renderNat_of_not_digit d.year '-' (by decide))
    (not_mem_renderNat_of_not_digit d.month '-' (by decide))
    (not_mem_renderNat_of_not_digit d.day '-' (by decide))]
  simp only [parseNatChars_renderNat]
  show some (mkDate d.year d.month d.day) = some d
  rw [Option.some_inj]
  exact mkDate_year_month_day d

theorem renderRat_chars (q : ℚ) :
    ∀ c ∈ renderRat q, c.isDigit = true ∨ c = '-' ∨ c = '/' := by
  intro c hc
  unfold renderRat at hc
  rcases List.mem_append.mp hc with h | h
  · rcases renderInt_chars q.num c h with h' | h'
    · exact Or.inl h'
    · exact Or.inr (Or.inl h')
  · rcases List.mem_cons.mp h with h' | h'
    · exact Or.inr (Or.inr h')
    · exact Or.inl (renderNat_isDigit q.den c h')

theorem renderDate_chars (d : Date) :
    ∀ c ∈ renderDate d, c.isDigit = true ∨ c = '-' := by
  intro c hc
  unfold renderDate at hc
  rcases List.mem_append.mp hc with h | h
  · exact Or.inl (renderNat_isDigit d.year c h)
  · rcases List.mem_cons.mp h with h' | h'
    · exact Or.inr h'
    · rcases List.mem_append.mp h' with h2 | h2
      · exact Or.inl (renderNat_isDigit d.month c h2)
      · rcases List.mem_cons.mp h2 with h3 | h3
        · exact Or.inr h3
        · exact Or.inl (renderNat_isDigit d.day c h3)

theorem renderDisplayRow_chars (r : DisplayRow) :
    ∀ c ∈ renderDisplayRow r,
      c.isDigit = true ∨ c = '-' ∨ c = '/' ∨ c = ',' := by
  intro c hc
  unfold renderDisplayRow at hc
  rcases mem_joinWith ',' _ c hc with h | ⟨x, hx, hcx⟩
  · exact Or.inr (Or.inr (Or.inr h))
  · simp only [List.mem_cons, List.not_mem_nil, or_false] at hx
    rcases hx with rfl | rfl | rfl | rfl
    · rcases renderDate_chars r.date c hcx with h' | h'
      · exact Or.inl h'
      · exact Or.inr (Or.inl h')
    all_goals
      rcases renderRat_chars _ c hcx with h' | h' | h'
      · exact Or.inl h'
      · exact Or.inr (Or.inl h')
      · exact Or.inr (Or.inr (Or.inl h'))

theorem comma_not_mem_renderDate (d : Date) : (',' : Char) ∉ renderDate d := by
  intro h
  rcases renderDate_chars d ',' h with h' | h'
  · exact absurd h' (by decide)
  · exact absurd h' (by decide)

theorem comma_not_mem_renderRat (q : ℚ) : (',' : Char) ∉ renderRat q := by
  intro h
  rcases renderRat_chars q ',' h with h' | h' | h'
  · exact absurd h' (by decide)
  · exact absurd h' (by decide)
  · exact absurd h' (by decide)

theorem splitOnChar_renderDisplayRow (r : DisplayRow) :
    splitOnChar ',' (renderDisplayRow r)
      = [renderDate r.date, renderRat r.forecast, renderRat r.lower_bound,
          renderRat r.upper_bound] := by
  unfold renderDisplayRow
  simp only [joinWith]
  rw [splitOnChar_append_of_not_mem ',' _ _ (comma_not_mem_renderDate r.date),
    splitOnChar_cons_self ',',
    splitOnChar_append_of_not_mem ',' _ _ (comma_not_mem_renderRat r.forecast),
    splitOnChar_cons_self ',',
    splitOnChar_two_cells ',' (renderRat r.lower_bound) (renderRat r.upper_bound)
      (comma_not_mem_renderRat r.lower_bound)
      (comma_not_mem_renderRat r.upper_bound)]
  simp

theorem parseDisplayRow_renderDisplayRow (r : DisplayRow) :
    parseDisplayRow (renderDisplayRow r) = some r := by
  rw [parseDisplayRow, splitOnChar_renderDisplayRow]
  simp only [parseDateChars_renderDate, parseRatChars_renderRat]
  show some (⟨r.date, r.forecast, r.lower_bound, r.upper_bound⟩ : DisplayRow)
      = some r
  rfl

theorem newline_not_mem_renderDisplayRow (r : DisplayRow) :
    ('\n' : Char) ∉ renderDisplayRow r := by
  intro h
  rcases renderDisplayRow_chars r '\n' h with h' | h' | h' | h'
  · exact absurd h' (by decide)
  · exact absurd h' (by decide)
  · exact absurd h' (by decide)
  · exact absurd h' (by decide)

theorem splitOnChar_toCsv (rows : List DisplayRow) :
    splitOnChar '\n' (toCsv rows) = headerChars :: rows.map renderDisplayRow := by
  unfold toCsv
  apply splitOnChar_joinWith
  · simp
  · intro x hx
    rcases List.mem_cons.mp hx with rfl | hx
    · decide
    · rcases List.mem_map.mp hx with ⟨r, _, rfl⟩
      exact newline_not_mem_renderDisplayRow r

theorem mapM_parseDisplayRow (rows : List DisplayRow) :
    (rows.map renderDisplayRow).mapM parseDisplayRow = some rows := by
  induction rows with
  | nil => rfl
  | cons r rs ih =>
    rw [List.map_cons, List.mapM_cons, parseDisplayRow_renderDisplayRow, ih]
    rfl

theorem parseCsv_toCsv (rows : List DisplayRow) :
    parseCsv (String.mk (toCsv rows)) = some rows := by
  have hdata : (String.mk (toCsv rows)).data = toCsv rows := rfl
  rw [parseCsv, hdata, splitOnChar_toCsv]
  show (if headerChars = headerChars then
      (rows.map renderDisplayRow).mapM parseDisplayRow
    else none) = some rows
  rw [if_pos rfl, mapM_parseDisplayRow]

/-! ## Structure of the future timestamps -/

theorem rollForwardME_ge (d : Date) : d.ym ≤ rollForwardME d := by
  unfold rollForwardME
  split
  · exact le_rfl
  · omega

theorem date_lt_monthEndOf_of_ym_lt {a : Date} {ym : Nat} (h : a.ym < ym) :
    a < monthEndOf ym := Or.inl h

theorem futureDates_eq (last : Date) (N : Nat) :
    futureDates last N
      = (List.range N).map (fun i => monthEndOf (futureStart last + i)) := by
  have key : ∀ j : Nat,
      List.take N ((List.range (N + 1)).map (fun i => monthEndOf (j + i)))
        = (List.range N).map (fun i => monthEndOf (j + i)) := by
    intro j
    rw [← List.map_take, List.take_range]
    congr 1
    simp
  unfold futureDates dateRangeME
  by_cases hp : last < monthEndOf (rollForwardME last)
  · have hall : ∀ a ∈ (List.range (N + 1)).map
        (fun i => monthEndOf (rollForwardME last + i)),
        (fun d => decide (last < d)) a = true := by
      intro a ha
      rcases List.mem_map.mp ha with ⟨i, _, rfl⟩
      cases i with
      | zero => simpa using decide_eq_true hp
      | succ j =>
        refine decide_eq_true (date_lt_monthEndOf_of_ym_lt ?_)
        have := rollForwardME_ge last
        omega
    rw [List.filter_eq_self.mpr hall, key, futureStart, if_pos hp]
  · rw [List.range_succ_eq_map, List.map_cons, List.map_map]
    rw [List.filter_cons_of_neg (by simpa using hp)]
    have htail : ∀ a ∈ (List.range N).map
        ((fun i => monthEndOf (rollForwardME last + i)) ∘ Nat.succ),
        (fun d => decide (last < d)) a = true := by
      intro a ha
      rcases List.mem_map.mp ha with ⟨i, _, rfl⟩
      refine decide_eq_true (date_lt_monthEndOf_of_ym_lt ?_)
      have := rollForwardME_ge last
      omega
    rw [List.filter_eq_self.mpr htail,
      List.take_of_length_le (by simp), futureStart, if_neg hp]
    apply List.map_congr_left
    intro i _
    simp only [Function.comp]
    congr 1
    omega

theorem futureDates_length (last : Date) (N : Nat) :
    (futureDates last N).length = N := by
  rw [futureDates_eq]
  simp

theorem mem_futureDates_gt (last : Date) (N : Nat) :
    ∀ d ∈ futureDates last N, last < d := by
  intro d hd
  unfold futureDates at hd
  have hd' := List.take_subset _ _ hd
  exact of_decide_eq_true (List.mem_filter.mp hd').2

theorem consecMonthEnds_futureDates (last : Date) (N : Nat) :
    ConsecMonthEnds (futureDates last N) := by
  refine ⟨futureStart last, ?_⟩
  rw [futureDates_length, futureDates_eq]

/-! ## Shape of the displayed forecast table -/

theorem forecast_inflation_eq (df : Series) (N : Nat) (m : Model) :
    forecast_inflation df N m
      = (histDates (df.map ObsRow.date)).map (predictRow m)
        ++ (futureDates (maxDate (df.map ObsRow.date)) N).map (predictRow m) := by
  unfold forecast_inflation make_future_dataframe
  rw [List.map_append]

theorem tailRows_append_right {α : Type} (h f : List α) (N : Nat)
    (hf : f.length = N) : tailRows N (h ++ f) = f := by
  unfold tailRows
  rw [List.length_append, hf]
  have heq : h.length + N - N = h.length := by omega
  rw [heq]
  exact List.drop_left h f

theorem forecast_display_eq (df : Series) (N : Nat) (m : Model) :
    forecast_display (forecast_inflation df N m) N
      = (futureDates (maxDate (df.map ObsRow.date)) N).map
          (fun d => (⟨d, (m d).1, (m d).1 - |(m d).2.1|,
            (m d).1 + |(m d).2.2|⟩ : DisplayRow)) := by
  unfold forecast_display
  rw [forecast_inflation_eq,
    tailRows_append_right _ _ N (by simp [futureDates_length]), List.map_map]
  rfl

theorem forecast_display_dates (df : Series) (N : Nat) (m : Model) :
    (forecast_display (forecast_inflation df N m) N).map DisplayRow.date
      = futureDates (maxDate (df.map ObsRow.date)) N := by
  rw [forecast_display_eq, List.map_map]
  exact List.map_id _

theorem forecast_display_length (df : Series) (N : Nat) (m : Model) :
    (forecast_display (forecast_inflation df N m) N).length = N := by
  rw [forecast_display_eq]
  simp [futureDates_length]


/-! ## Properties of Data Acquisition -/

theorem except_bind_ok {ε α β : Type} (a : α) (f : α → Except ε β) :
    (Except.ok a).bind f = f a := rfl

theorem except_bind_error {ε α β : Type} (e : ε) (f : α → Except ε β) :
    (Except.error e).bind f = Except.error e := rfl

theorem except_map_ok {ε α β : Type} (f : α → β) (a : α) :
    Except.map f (Except.ok a : Except ε α) = Except.ok (f a) := rfl

theorem except_map_error {ε α β : Type} (f : α → β) (e : ε) :
    Except.map f (Except.error e : Except ε α) = Except.error e := rfl

theorem date_le_iff (a b : Date) :
    a ≤ b ↔ (a.ym < b.ym ∨ (a.ym = b.ym ∧ a.day ≤ b.day)) := Iff.rfl

theorem date_lt_iff (a b : Date) :
    a < b ↔ (a.ym < b.ym ∨ (a.ym = b.ym ∧ a.day < b.day)) := Iff.rfl

theorem ne_null_of_isNull_false {v : JValue} (h : v.isNull = false) :
    v ≠ JValue.null := by
  intro hv
  rw [hv] at h
  exact absurd h (by simp [JValue.isNull])

theorem get_world_bank_inflation_ok (resp : Option JValue) (tbl : Series)
    (h : get_world_bank_inflation resp = .ok tbl) :
    ∃ recs rows, extractRecords resp = .ok recs ∧ parseRecords recs = .ok rows ∧
      rows ≠ [] ∧ tbl = List.insertionSort byDate rows := by
  unfold get_world_bank_inflation at h
  cases he : extractRecords resp with
  | error e =>
    rw [he, except_bind_error] at h
    exact Except.noConfusion h
  | ok recs =>
    rw [he] at h
    simp only [except_bind_ok] at h
    cases hp : parseRecords recs with
    | error e =>
      rw [hp, except_bind_error] at h
      exact Except.noConfusion h
    | ok rows =>
      rw [hp] at h
      simp only [except_bind_ok] at h
      by_cases hrows : rows.isEmpty
      · rw [if_pos hrows] at h
        exact Except.noConfusion h
      · rw [if_neg hrows] at h
        refine ⟨recs, rows, rfl, hp, ?_, ?_⟩
        · intro hnil
          exact hrows (by simp [hnil])
        · injection h with h2
          exact h2.symm

theorem parseRecords_no_null :
    ∀ (recs : List JValue) (rows : List ObsRow), parseRecords recs = .ok rows →
      ∀ r ∈ rows, r.inflation ≠ JValue.null := by
  intro recs
  induction recs with
  | nil =>
    intro rows h r hr
    simp only [parseRecords] at h
    injection h with h2
    rw [← h2] at hr
    simp at hr
  | cons d rest ih =>
    intro rows h r hr
    rw [parseRecords] at h
    split at h
    · exact Except.noConfusion h
    · rename_i v hv
      split at h
      · exact ih rows h r hr
      · rename_i hnn
        split at h
        · exact Except.noConfusion h
        · rename_i s hs
          split at h
          · exact Except.noConfusion h
          · rename_i dt hdt
            cases hrest : parseRecords rest with
            | error e =>
              rw [hrest, except_map_error] at h
              exact Except.noConfusion h
            | ok rows2 =>
              rw [hrest, except_map_ok] at h
              injection h with h2
              rw [← h2] at hr
              rcases List.mem_cons.mp hr with rfl | hr2
              · exact ne_null_of_isNull_false (by simpa using hnn)
              · exact ih rows2 hrest r hr2
        · exact Except.noConfusion h

/-! ## Failure shapes of Data Acquisition -/

theorem isNull_false_of_ne_null {v : JValue} (h : v ≠ JValue.null) :
    v.isNull = false := by
  cases v with
  | null => exact absurd rfl h
  | num q => rfl
  | str s => rfl
  | arr l => rfl
  | obj f => rfl

theorem parseRecords_bad_error :
    ∀ recs : List JValue, (∃ d ∈ recs, BadRecord d) →
      parseRecords recs = .error .dataFormatError := by
  intro recs
  induction recs with
  | nil =>
    rintro ⟨d, hd, _⟩
    simp at hd
  | cons d rest ih =>
    rintro ⟨x, hx, hb⟩
    rcases List.mem_cons.mp hx with rfl | hx2
    · rcases hb with hv | ⟨v, hv, hvn, hdate⟩
      · simp [parseRecords, hv]
      · simp [parseRecords, hv, isNull_false_of_ne_null hvn, hdate]
    · have hrest := ih ⟨x, hx2, hb⟩
      cases hv : getField d "value" with
      | none => simp [parseRecords, hv]
      | some v =>
        by_cases hnn : v.isNull = true
        · simp [parseRecords, hv, hnn, hrest]
        · cases hd2 : getField d "date" with
          | none => simp [parseRecords, hv, hnn, hd2]
          | some jd =>
            cases jd with
            | str s2 =>
              cases hpd : parseWBDate s2 with
              | none => simp [parseRecords, hv, hnn, hd2, hpd]
              | some dt =>
                simp [parseRecords, hv, hnn, hd2, hpd, hrest, except_map_error]
            | null => simp [parseRecords, hv, hnn, hd2]
            | num q2 => simp [parseRecords, hv, hnn, hd2]
            | arr l2 => simp [parseRecords, hv, hnn, hd2]
            | obj f2 => simp [parseRecords, hv, hnn, hd2]

theorem extractRecords_no_second (j : JValue)
    (h : ∀ x y l, j ≠ JValue.arr (x :: y :: l)) :
    extractRecords (some j) = .error .dataFormatError := by
  cases j with
  | arr elems =>
    match elems with
    | [] => rfl
    | [x] => rfl
    | x :: y :: l => exact absurd rfl (h x y l)
  | null => rfl
  | num q => rfl
  | str s => rfl
  | obj f => rfl

/-! ## Behaviour of the script pipeline -/

theorem script_ok (resp : Option JValue) (N : Nat) (e : Bool) (v : ℚ)
    (t : Date) (m : Model) (data0 : Series)
    (h : get_world_bank_inflation resp = .ok data0) :
    script resp N e v t m
      = .ok ⟨tailRows 12 data0,
          forecast_display
            (forecast_inflation (augmentCurrentMonth data0 e v t) N m) N,
          ⟨"nigeria_inflation_forecast.csv", "text/csv",
            String.mk (toCsv (forecast_display
              (forecast_inflation (augmentCurrentMonth data0 e v t) N m) N))⟩⟩ := by
  unfold script
  rw [h]

theorem script_error (resp : Option JValue) (N : Nat) (e : Bool) (v : ℚ)
    (t : Date) (m : Model) (err : AppError)
    (h : get_world_bank_inflation resp = .error err) :
    script resp N e v t m = .error err := by
  unfold script
  rw [h]

/-! ## The claims -/

/-- C1: every row of a forecast produced by `forecast_inflation` satisfies
`yhat_lower ≤ yhat ≤ yhat_upper`. -/
theorem forecast_bounds (m : Model) (df : Series) (periods : Nat) :
    ∀ row ∈ forecast_inflation df periods m,
      row.yhat_lower ≤ row.yhat ∧ row.yhat ≤ row.yhat_upper := by
  intro row hrow
  unfold forecast_inflation at hrow
  rcases List.mem_map.mp hrow with ⟨d, _, rfl⟩
  unfold predictRow
  constructor
  · have h := abs_nonneg ((m d).2.1)
    simp only []
    linarith
  · have h := abs_nonneg ((m d).2.2)
    simp only []
    linarith

theorem forecast_bounds_witness :
    row0 ∈ forecast_inflation df3 3 m0 ∧
      (row0.yhat_lower ≤ row0.yhat ∧ row0.yhat ≤ row0.yhat_upper) := by
  have he : forecast_inflation df3 3 m0
      = [predictRow m0 (mkDate 2023 1 1), predictRow m0 (mkDate 2023 2 1),
          predictRow m0 (mkDate 2023 2 28), predictRow m0 (mkDate 2023 3 31),
          predictRow m0 (mkDate 2023 4 30)] := rfl
  have hmem : row0 ∈ forecast_inflation df3 3 m0 := by
    rw [he]
    exact List.mem_cons_self _ _
  exact ⟨hmem, forecast_bounds m0 df3 3 row0 hmem⟩

/-- C2: for every fittable series and horizon N in [3,36], the displayed
forecast table has exactly N rows, whose dates are N consecutive month-end
dates, all strictly after the last historical date. -/
theorem forecast_display_shape (m : Model) (df : Series) (N : Nat)
    (_h3 : 3 ≤ N) (_h36 : N ≤ 36) (_hne : df ≠ []) :
    (forecast_display (forecast_inflation df N m) N).length = N ∧
    ConsecMonthEnds
      ((forecast_display (forecast_inflation df N m) N).map DisplayRow.date) ∧
    ∀ d ∈ (forecast_display (forecast_inflation df N m) N).map DisplayRow.date,
      maxDate (df.map ObsRow.date) < d := by
  refine ⟨forecast_display_length df N m, ?_, ?_⟩
  · rw [forecast_display_dates]
    exact consecMonthEnds_futureDates _ N
  · rw [forecast_display_dates]
    exact mem_futureDates_gt _ N

theorem forecast_display_shape_witness :
    (3 ≤ 3 ∧ 3 ≤ 36 ∧ df3 ≠ []) ∧
      (forecast_display (forecast_inflation df3 3 m0) 3).length = 3 :=
  ⟨⟨by decide, by decide, by simp [df3]⟩,
    (forecast_display_shape m0 df3 3 (by decide) (by decide) (by simp [df3])).1⟩

/-- C3 (amended): for the series [(2023-01-01, 21.8), (2023-02-01, 21.9)]
and N = 3, the forecast table has exactly 3 rows, whose dates are the month
ends 2023-02-28, 2023-03-31 and 2023-04-30 (month-end frequency starts at
the first month end after the last historical date), each row with
LowerBound ≤ Forecast ≤ UpperBound. -/
theorem forecast_example (m : Model) :
    (forecast_display (forecast_inflation df3 3 m) 3).length = 3 ∧
    (forecast_display (forecast_inflation df3 3 m) 3).map DisplayRow.date
      = [mkDate 2023 2 28, mkDate 2023 3 31, mkDate 2023 4 30] ∧
    ∀ r ∈ forecast_display (forecast_inflation df3 3 m) 3,
      r.lower_bound ≤ r.forecast ∧ r.forecast ≤ r.upper_bound := by
  refine ⟨forecast_display_length df3 3 m, ?_, ?_⟩
  · rw [forecast_display_dates]
    decide
  · intro r hr
    rw [forecast_display_eq] at hr
    rcases List.mem_map.mp hr with ⟨d, _, rfl⟩
    constructor
    · have h := abs_nonneg ((m d).2.1)
      simp only []
      linarith
    · have h := abs_nonneg ((m d).2.2)
      simp only []
      linarith

theorem forecast_example_witness :
    (forecast_display (forecast_inflation df3 3 m0) 3).map DisplayRow.date
      = [mkDate 2023 2 28, mkDate 2023 3 31, mkDate 2023 4 30] :=
  (forecast_example m0).2.1

/-- C3 counterexample: at the specification's example input the displayed
dates are not 2023-03-01, 2023-04-01, 2023-05-01; future timestamps are
generated at month-end frequency. -/
theorem forecast_example_counterexample :
    (forecast_display (forecast_inflation df3 3 m0) 3).map DisplayRow.date
      ≠ [mkDate 2023 3 1, mkDate 2023 4 1, mkDate 2023 5 1] := by
  decide

/-- C4: within one calendar month, running the current-month augmentation a
second time with the same flag and value leaves the series length unchanged:
the date guard prevents a duplicate row. -/
theorem augment_idempotent (data : Series) (enabled : Bool) (v : ℚ)
    (today : Date) :
    (augmentCurrentMonth (augmentCurrentMonth data enabled v today)
        enabled v today).length
      = (augmentCurrentMonth data enabled v today).length := by
  unfold augmentCurrentMonth
  cases enabled with
  | false => rfl
  | true =>
    by_cases hc : today.firstOfMonth ∈ data.map ObsRow.date
    · simp [hc]
    · simp [hc]

/-- C5 (amended): whenever Data Acquisition succeeds, the resulting table is
sorted ascending by Date (non-strictly: records sharing a date stay adjacent),
contains no null values, and is a permutation of exactly the rows parsed from
the non-null records. -/
theorem acquisition_sorted (resp : Option JValue) (tbl : Series)
    (h : get_world_bank_inflation resp = .ok tbl) :
    List.Sorted byDate tbl ∧ (∀ r ∈ tbl, r.inflation ≠ JValue.null) ∧
      ∃ recs rows, extractRecords resp = .ok recs ∧
        parseRecords recs = .ok rows ∧ tbl.Perm rows := by
  rcases get_world_bank_inflation_ok resp tbl h with ⟨recs, rows, he, hp, _hne, htbl⟩
  subst htbl
  refine ⟨List.sorted_insertionSort byDate rows, ?_,
    recs, rows, he, hp, List.perm_insertionSort byDate rows⟩
  intro r hr
  have hr2 : r ∈ rows := (List.perm_insertionSort byDate rows).subset hr
  exact parseRecords_no_null recs rows hp r hr2

theorem acquisition_sorted_witness :
    get_world_bank_inflation resp0 = .ok data0 ∧ List.Sorted byDate data0 :=
  ⟨rfl, (acquisition_sorted resp0 data0 rfl).1⟩

/-- C5 counterexample: a valid response whose two non-null records share the
date "2023" yields a table with two equal dates, which is not strictly
ascending; `sort_values` sorts non-strictly. -/
theorem acquisition_sorted_counterexample :
    get_world_bank_inflation resp5 = .ok tbl5 ∧
      tbl5.map ObsRow.date = [mkDate 2023 1 1, mkDate 2023 1 1] ∧
      ¬ List.Sorted (fun a b : ObsRow => a.date < b.date) tbl5 := by
  refine ⟨rfl, by decide, ?_⟩
  intro hs
  have h2 := List.Pairwise.chain' hs
  rw [show tbl5 = [⟨mkDate 2023 1 1, .num 1⟩, ⟨mkDate 2023 1 1, .num 2⟩] from rfl]
    at h2
  rcases List.chain'_cons.mp h2 with ⟨hlt, _⟩
  rw [date_lt_iff] at hlt
  simp [mkDate] at hlt

/-- C6: parsing the exported CSV back yields exactly the on-screen forecast
table (dates and the three value columns), the values being serialized
exactly. -/
theorem csv_round_trip (resp : Option JValue) (N : Nat) (e : Bool) (v : ℚ)
    (t : Date) (m : Model) (out : Outputs)
    (h : script resp N e v t m = .ok out) :
    parseCsv out.artifact.data = some out.table := by
  cases hg : get_world_bank_inflation resp with
  | error err =>
    rw [script_error resp N e v t m err hg] at h
    exact Except.noConfusion h
  | ok data1 =>
    rw [script_ok resp N e v t m data1 hg] at h
    injection h with h2
    rw [← h2]
    exact parseCsv_toCsv _

theorem csv_round_trip_witness :
    script resp0 3 false 0 date0 m0 = .ok out0 ∧
      parseCsv out0.artifact.data = some out0.table :=
  ⟨rfl, csv_round_trip resp0 3 false 0 date0 m0 out0 rfl⟩

/-- C7: the exported artifact is named `nigeria_inflation_forecast.csv`, has
MIME type `text/csv`, its header names exactly the columns Date, Forecast,
Lower Bound, Upper Bound in that order, and it has one four-cell data line
per forecast-horizon month with no index column. -/
theorem artifact_format (resp : Option JValue) (N : Nat) (e : Bool) (v : ℚ)
    (t : Date) (m : Model) (out : Outputs)
    (h : script resp N e v t m = .ok out) :
    out.artifact.file_name = "nigeria_inflation_forecast.csv" ∧
    out.artifact.mime = "text/csv" ∧
    splitOnChar ',' headerChars
      = ["Date".data, "Forecast".data, "Lower Bound".data, "Upper Bound".data] ∧
    ∃ rows, splitOnChar '\n' out.artifact.data.data = headerChars :: rows ∧
      rows.length = N ∧ ∀ r ∈ rows, (splitOnChar ',' r).length = 4 := by
  cases hg : get_world_bank_inflation resp with
  | error err =>
    rw [script_error resp N e v t m err hg] at h
    exact Except.noConfusion h
  | ok data1 =>
    rw [script_ok resp N e v t m data1 hg] at h
    injection h with h2
    rw [← h2]
    refine ⟨rfl, rfl, by decide,
      (forecast_display
        (forecast_inflation (augmentCurrentMonth data1 e v t) N m) N).map
          renderDisplayRow, ?_, ?_, ?_⟩
    · exact splitOnChar_toCsv _
    · rw [List.length_map]
      exact forecast_display_length _ N m
    · intro r hr
      rcases List.mem_map.mp hr with ⟨row, _, rfl⟩
      rw [splitOnChar_renderDisplayRow]
      rfl

theorem artifact_format_witness :
    script resp0 3 false 0 date0 m0 = .ok out0 ∧
      out0.artifact.file_name = "nigeria_inflation_forecast.csv" ∧
      out0.artifact.mime = "text/csv" :=
  ⟨rfl, (artifact_format resp0 3 false 0 date0 m0 out0 rfl).1,
    (artifact_format resp0 3 false 0 date0 m0 out0 rfl).2.1⟩

/-- C8 (amended): a failed request aborts the render with the network error;
a response without a second element aborts it with the data-format error; any
acquisition error propagates uncaught through the whole render, producing no
partial output; a record with a missing `value` key, or with a non-null value
and a missing `date` key, aborts acquisition with the data-format error; and
when every record is filtered out, the empty frame aborts acquisition too
(`sort_values("Date")` raises `KeyError`).  A record whose value is null is
skipped before its `date` key is read, so its missing `date` key does not
itself raise. -/
theorem acquisition_failure_propagation :
    (∀ N e v t m, script none N e v t m = .error .networkError) ∧
    (∀ j N e v t m, (∀ x y l, j ≠ JValue.arr (x :: y :: l)) →
      script (some j) N e v t m = .error .dataFormatError) ∧
    (∀ resp err N e v t m, get_world_bank_inflation resp = .error err →
      script resp N e v t m = .error err) ∧
    (∀ x recs l N e v t m, (∃ d ∈ recs, BadRecord d) →
      script (some (.arr (x :: .arr recs :: l))) N e v t m
        = .error .dataFormatError) ∧
    (∀ resp recs N e v t m, extractRecords resp = .ok recs →
      parseRecords recs = .ok [] →
      script resp N e v t m = .error .dataFormatError) := by
  refine ⟨?_, ?_, ?_, ?_, ?_⟩
  · intro N e v t m
    rfl
  · intro j N e v t m hj
    apply script_error
    unfold get_world_bank_inflation
    rw [extractRecords_no_second j hj, except_bind_error]
  · intro resp err N e v t m h
    exact script_error resp N e v t m err h
  · intro x recs l N e v t m hbad
    apply script_error
    unfold get_world_bank_inflation
    have hex : extractRecords (some (.arr (x :: .arr recs :: l))) = .ok recs := rfl
    rw [hex]
    simp only [except_bind_ok]
    rw [parseRecords_bad_error recs hbad, except_bind_error]
  · intro resp recs N e v t m hex hparse
    apply script_error
    unfold get_world_bank_inflation
    rw [hex]
    simp only [except_bind_ok]
    rw [hparse]
    rfl

theorem acquisition_failure_propagation_witness :
    script none 12 false 0 date0 m0 = .error .networkError ∧
      script (some (.arr [.null, .arr [badrec]])) 12 false 0 date0 m0
        = .error .dataFormatError ∧
      script respEmpty 12 false 0 date0 m0 = .error .dataFormatError :=
  ⟨acquisition_failure_propagation.1 12 false 0 date0 m0,
    acquisition_failure_propagation.2.2.2.1 .null [badrec] [] 12 false 0 date0 m0
      ⟨badrec, by simp,
        Or.inr ⟨.num 1, rfl, fun hh => JValue.noConfusion hh, rfl⟩⟩,
    acquisition_failure_propagation.2.2.2.2 respEmpty [.obj [("value", .null)]]
      12 false 0 date0 m0 rfl rfl⟩

/-- C8 counterexample: the record `{"value": null}` has a missing `date` key,
yet Data Acquisition succeeds: the comprehension filters the null-valued
record out before reading its date, and the surviving record yields the
table.  A missing `date` key therefore does not always raise. -/
theorem acquisition_failure_counterexample :
    get_world_bank_inflation resp8 = .ok [⟨mkDate 2023 1 1, .num 5⟩] := rfl

/-- C9: the raw-data view is the last 12 rows of the acquired series, taken
before the augmentation step, so it does not depend on the manual-input flag
or value. -/
theorem raw_view_noninterference (resp : Option JValue) (N : Nat) (t : Date)
    (m : Model) (e₁ e₂ : Bool) (v₁ v₂ : ℚ) :
    (script resp N e₁ v₁ t m).map Outputs.raw
      = (script resp N e₂ v₂ t m).map Outputs.raw ∧
    ∀ data, get_world_bank_inflation resp = .ok data →
      (script resp N e₁ v₁ t m).map Outputs.raw = .ok (tailRows 12 data) := by
  constructor
  · cases hg : get_world_bank_inflation resp with
    | error err =>
      rw [script_error resp N e₁ v₁ t m err hg,
        script_error resp N e₂ v₂ t m err hg]
    | ok data1 =>
      rw [script_ok resp N e₁ v₁ t m data1 hg,
        script_ok resp N e₂ v₂ t m data1 hg]
      rfl
  · intro data1 hg
    rw [script_ok resp N e₁ v₁ t m data1 hg]
    rfl

theorem raw_view_noninterference_witness :
    get_world_bank_inflation resp0 = .ok data0 ∧
      (script resp0 5 true 7 date0 m0).map Outputs.raw
        = .ok (tailRows 12 data0) :=
  ⟨rfl, (raw_view_noninterference resp0 5 date0 m0 true false 7 0).2 data0 rfl⟩

/-- C10: the augmentation step never modifies or removes an existing row: it
returns the series unchanged, or appends exactly one row, dated the first
day of the current month, at the end; the original series is always a prefix
of the result. -/
theorem augment_frame (data : Series) (enabled : Bool) (v : ℚ) (today : Date) :
    (augmentCurrentMonth data enabled v today = data ∨
      augmentCurrentMonth data enabled v today
        = data ++ [⟨today.firstOfMonth, .num v⟩]) ∧
    (augmentCurrentMonth data enabled v today).take data.length = data ∧
    (today.firstOfMonth).day = 1 := by
  unfold augmentCurrentMonth
  cases enabled with
  | false => exact ⟨Or.inl rfl, List.take_length data, rfl⟩
  | true =>
    by_cases hc : today.firstOfMonth ∈ data.map ObsRow.date
    · refine ⟨Or.inl (by simp [hc]), ?_, rfl⟩
      simp [hc, List.take_length]
    · refine ⟨Or.inr (by simp [hc]), ?_, rfl⟩
      simp only [if_pos trivial, if_neg hc]
      exact List.take_left data _
